import Mathlib

/-!
Verification of the EventSphere booking-service Prometheus metrics middleware
(src/services/booking-service/src/middleware/metrics.js) against its
natural-language specification.

The middleware is embedded shallowly:
* the route-normalization regex replace
  `route.replace(/\/[a-f0-9]{24}/gi, '/:id')` becomes a left-to-right
  scan over the character list (`normRun` / `normalizeRoute`);
* the metric registry becomes explicit state (`Registry`) mapping label
  sets to a counter value and to the list of recorded histogram
  observations; durations are modelled as exact rationals (seconds);
* the finish callback becomes the state transformer `onFinish`, and the
  whole per-request lifecycle becomes `metricsMiddleware`;
* the prom-client rendering used by the `GET /metrics` handler is
  modelled structurally (`PromRegistry`, `registryRender`,
  `metricsHandler`).
-/

namespace EventSphere

/-- Character class of the regex `[a-f0-9]` under the `i` flag:
decimal digits, lowercase `a`-`f`, uppercase `A`-`F`. -/
def isHexDigit (c : Char) : Bool :=
  (decide ('0' ≤ c) && decide (c ≤ '9')) ||
  (decide ('a' ≤ c) && decide (c ≤ 'f')) ||
  (decide ('A' ≤ c) && decide (c ≤ 'F'))

/-- The regex body after the slash: exactly 24 hexadecimal characters
starting at the head of `cs`. -/
def matches24 (cs : List Char) : Bool :=
  ((cs.take 24).length == 24) && (cs.take 24).all isHexDigit

/-- Left-to-right global replace of `/` followed by 24 hex characters with
`/:id`, exactly as JavaScript `String.prototype.replace` with a global
regex scans: on a match the scan resumes after the matched text, otherwise
it advances one character.  The first argument is fuel; one unit of fuel is
spent per step and each step consumes at least one input character, so any
fuel of at least the input length gives the replace semantics. -/
def normRun : Nat → List Char → List Char
  | 0, l => l
  | _ + 1, [] => []
  | n + 1, c :: cs =>
    if c == '/' && matches24 cs then
      '/' :: ':' :: 'i' :: 'd' :: normRun n (cs.drop 24)
    else
      c :: normRun n cs

/-- The global regex replace on a character list (fuel instantiated to the
input length, which is always sufficient). -/
def normChars (l : List Char) : List Char :=
  normRun l.length l

/-- `route.replace(/\/[a-f0-9]{24}/gi, '/:id')` from metrics.js line 47. -/
def normalizeRoute (s : String) : String :=
  ⟨normChars s.data⟩

/-- Whether the regex `\/[a-f0-9]{24}` matches anywhere in the list, i.e.
whether the global replace changes anything. -/
def hasMatch : List Char → Bool
  | [] => false
  | c :: cs => (c == '/' && matches24 cs) || hasMatch cs

/-- Whether `normalizeRoute` has an occurrence of `/` + 24 hex characters
to rewrite in the string. -/
def hasMatchStr (s : String) : Bool :=
  hasMatch s.data

/-- Split a character list at `/` separators (the usual notion of path
segments used by the specification's wording). -/
def splitSlash : List Char → List (List Char)
  | [] => [[]]
  | c :: cs =>
    if c == '/' then
      [] :: splitSlash cs
    else
      match splitSlash cs with
      | [] => [[c]]
      | g :: gs => (c :: g) :: gs

/-- Formalization of the claim's wording: the path has a path segment that
is, in its entirety, a 24-character hexadecimal identifier. -/
def hasHex24Segment (s : String) : Bool :=
  (splitSlash s.data).any (fun seg => (seg.length == 24) && seg.all isHexDigit)

/-- The label set of both instruments: `labelNames: ['method', 'route',
'status']` (metrics.js lines 22 and 31). -/
structure Labels where
  method : String
  route : String
  status : String
deriving DecidableEq

/-- The state of the two HTTP instruments registered in metrics.js: for
each label set, the current value of the `http_requests_total` counter and
the list of observations recorded into the
`http_request_duration_seconds` histogram (in seconds, as exact
rationals). -/
structure Registry where
  counters : Labels → Nat
  histObs : Labels → List ℚ

/-- The part of an Express request the middleware reads: `req.method`,
`req.route?.path` (the matched route pattern, absent when no route
matched), and `req.path` (absent models `undefined`). -/
structure Request where
  method : String
  routePath : Option String
  path : Option String
deriving DecidableEq

/-- The part of an Express response the middleware can see: status code,
headers and body.  The middleware only ever reads `statusCode`. -/
structure Response where
  statusCode : Nat
  headers : List (String × String)
  body : String
deriving DecidableEq

/-- JavaScript `a || b` where `a` is an optional string and `b` a string:
`b` is returned when `a` is `undefined` or the empty string (the only
falsy string). -/
def jsOrStr (a : Option String) (b : String) : String :=
  match a with
  | none => b
  | some s => if s.isEmpty then b else s

/-- Whether an optional string is available to the `||` fallback chain:
present and truthy (JavaScript treats `undefined` and the empty string as
the only falsy string values). -/
def jsAvailable : Option String → Bool
  | none => false
  | some s => !s.isEmpty

/-- `req.route?.path || req.path || 'unknown'` (metrics.js line 46). -/
def rawRoute (req : Request) : String :=
  jsOrStr req.routePath (jsOrStr req.path "unknown")

/-- `res.statusCode.toString()` (metrics.js line 52). -/
def statusLabel (res : Response) : String :=
  toString res.statusCode

/-- The `labels` object built in the finish callback (metrics.js lines
49-53): method verbatim, normalized route, status code as a string. -/
def requestLabels (req : Request) (res : Response) : Labels :=
  ⟨req.method, normalizeRoute (rawRoute req), statusLabel res⟩

/-- `Number(end - start) / 1e9` (metrics.js line 43), with the
nanosecond `process.hrtime.bigint()` readings modelled as naturals and
the division carried out exactly over the rationals. -/
def elapsedSeconds (startNs endNs : Nat) : ℚ :=
  ((endNs : ℚ) - (startNs : ℚ)) / 1000000000

/-- `httpRequestDuration.observe(labels, v)`: append one observation to
the histogram's record for exactly the given label set. -/
def observeHist (reg : Registry) (l : Labels) (v : ℚ) : Registry :=
  { reg with histObs := fun x => if x = l then reg.histObs x ++ [v] else reg.histObs x }

/-- `httpRequestsTotal.inc(labels)`: add one to the counter for exactly
the given label set. -/
def incCounter (reg : Registry) (l : Labels) : Registry :=
  { reg with counters := fun x => if x = l then reg.counters x + 1 else reg.counters x }

/-- The body of the `res.on('finish', ...)` callback (metrics.js lines
41-57): build the label set once, observe the elapsed duration into the
histogram under it, then increment the counter under the same labels. -/
def onFinish (reg : Registry) (req : Request) (res : Response) (d : ℚ) : Registry :=
  incCounter (observeHist reg (requestLabels req res) d) (requestLabels req res)

/-- One full instrumented request lifecycle through `metricsMiddleware`
(metrics.js lines 38-60): the start time is captured when the request
begins, `next()` is invoked (third component `true`), and on response
completion the finish callback records into the registry.  The response
is produced by the downstream handlers and is returned untouched. -/
def metricsMiddleware (reg : Registry) (req : Request) (res : Response)
    (startNs endNs : Nat) : Registry × Response × Bool :=
  (onFinish reg req res (elapsedSeconds startNs endNs), res, true)

/-- The events that touch the registry over the life of the process:
a completed instrumented request, or a scrape of `GET /metrics`
(which only reads the registry). -/
inductive Op where
  | request (req : Request) (res : Response) (startNs endNs : Nat)
  | scrape
deriving DecidableEq

/-- Effect of one event on the registry. -/
def applyOp (reg : Registry) : Op → Registry
  | .request req res s e => onFinish reg req res (elapsedSeconds s e)
  | .scrape => reg

/-- Effect of a sequence of events on the registry, applied in order. -/
def applyOps (reg : Registry) (ops : List Op) : Registry :=
  ops.foldl applyOp reg

/-- The label set an event records under, if any. -/
def opTarget : Op → Option Labels
  | .request req res _ _ => some (requestLabels req res)
  | .scrape => none

/-- One exported time series: its label pairs and current value. -/
structure Series where
  labels : List (String × String)
  value : ℚ
deriving DecidableEq

/-- One registered instrument: its metric name and current series. -/
structure Instrument where
  name : String
  series : List Series
deriving DecidableEq

/-- A prom-client registry: the default labels installed with
`setDefaultLabels` and the registered instruments. -/
structure PromRegistry where
  defaultLabels : List (String × String)
  instruments : List Instrument

/-- `register.contentType` of prom-client: the registered MIME type of
the text exposition format. -/
def promContentType : String :=
  "text/plain; version=0.0.4; charset=utf-8"

/-- Modelled from the spec: prom-client's renderer merges the registry's
default labels into every series of an instrument when exporting it
(the text serialization itself, which is library code outside src/, is
abstracted to the structured list of exported series). -/
def renderInstrument (defaults : List (String × String)) (inst : Instrument) : Instrument :=
  { inst with series := inst.series.map (fun s => { s with labels := defaults ++ s.labels }) }

/-- Modelled from the spec: `await register.metrics()` renders the full
current state of the registry, every instrument with its series and the
default labels attached. -/
def registryRender (r : PromRegistry) : List Instrument :=
  r.instruments.map (renderInstrument r.defaultLabels)

/-- The `metricsHandler` (metrics.js lines 65-68): set the Content-Type
header to `register.contentType` and respond with the rendered registry. -/
def metricsHandler (r : PromRegistry) : String × List Instrument :=
  (promContentType, registryRender r)

/-- Modelled from the spec: the names of the default Node.js process
metrics (CPU, memory, event loop, ...) that
`client.collectDefaultMetrics` (metrics.js line 16) registers into the
registry; the collector itself is prom-client library code outside
src/. -/
def defaultMetricNames : List String :=
  ["process_cpu_user_seconds_total", "process_cpu_system_seconds_total",
   "process_cpu_seconds_total", "process_start_time_seconds",
   "process_resident_memory_bytes", "nodejs_eventloop_lag_seconds",
   "nodejs_active_handles_total", "nodejs_heap_size_total_bytes",
   "nodejs_heap_size_used_bytes", "nodejs_external_memory_bytes"]

/-- The registry as constructed at module load in metrics.js lines 8-33:
default label `service=booking-service` (lines 11-13), then the default
Node.js process metrics (line 16), then the HTTP duration histogram
(line 25) and the HTTP request counter (line 33).  The current series of
each instrument at scrape time are parameters. -/
def moduleRegister (defSeries : String → List Series)
    (durSeries totSeries : List Series) : PromRegistry :=
  { defaultLabels := [("service", "booking-service")],
    instruments :=
      defaultMetricNames.map (fun n => ⟨n, defSeries n⟩) ++
      [⟨"http_request_duration_seconds", durSeries⟩,
       ⟨"http_requests_total", totSeries⟩] }

/-- A registry with nothing recorded yet, used to instantiate theorems at
concrete inputs. -/
def emptyRegistry : Registry :=
  ⟨fun _ => 0, fun _ => []⟩

/-- A concrete request used to instantiate theorems. -/
def exReq : Request :=
  ⟨"GET", some "/bookings/:id", some "/bookings/507f1f77bcf86cd799439011"⟩

/-- A concrete response used to instantiate theorems. -/
def exRes : Response :=
  ⟨200, [("content-type", "application/json")], "ok"⟩

/-- The label set `exReq`/`exRes` record under. -/
def exLabels : Labels :=
  ⟨"GET", "/bookings/:id", "200"⟩

/-- A concrete completed-request event used to instantiate theorems. -/
def exOp : Op :=
  .request exReq exRes 1000 2000

/-! ## Lemmas about the route-normalization transform -/

theorem normRun_fuel : ∀ n m : Nat, ∀ l : List Char, l.length ≤ n → l.length ≤ m →
    normRun n l = normRun m l := by
  intro n
  induction n with
  | zero =>
    intro m l hn _
    have hl : l = [] := List.length_eq_zero.mp (Nat.le_zero.mp hn)
    subst hl
    cases m <;> rfl
  | succ n ih =>
    intro m l hn hm
    cases l with
    | nil => cases m <;> rfl
    | cons c cs =>
      cases m with
      | zero => simp at hm
      | succ m' =>
        have hcn : cs.length ≤ n := Nat.succ_le_succ_iff.mp hn
        have hcm : cs.length ≤ m' := Nat.succ_le_succ_iff.mp hm
        simp only [normRun]
        by_cases h : (c == '/' && matches24 cs) = true
        · rw [if_pos h, if_pos h]
          have hd : (cs.drop 24).length ≤ cs.length := by
            rw [List.length_drop]; omega
          rw [ih m' (cs.drop 24) (le_trans hd hcn) (le_trans hd hcm)]
        · rw [if_neg h, if_neg h, ih m' cs hcn hcm]

theorem normChars_nil : normChars [] = [] := rfl

theorem normChars_cons_match (c : Char) (cs : List Char)
    (h : (c == '/' && matches24 cs) = true) :
    normChars (c :: cs) = '/' :: ':' :: 'i' :: 'd' :: normChars (cs.drop 24) := by
  show normRun (cs.length + 1) (c :: cs) = _
  simp only [normRun, if_pos h]
  have hd : (cs.drop 24).length ≤ cs.length := by
    rw [List.length_drop]; omega
  rw [normRun_fuel cs.length (cs.drop 24).length (cs.drop 24) hd (le_refl _)]
  rfl

theorem normChars_cons_else (c : Char) (cs : List Char)
    (h : (c == '/' && matches24 cs) = false) :
    normChars (c :: cs) = c :: normChars cs := by
  show normRun (cs.length + 1) (c :: cs) = _
  simp only [normRun]
  rw [if_neg (by simp [h])]
  rfl

theorem matches24_length (cs : List Char) (h : matches24 cs = true) : 24 ≤ cs.length := by
  unfold matches24 at h
  have h1 : ((cs.take 24).length == 24) = true := by
    cases hb : ((cs.take 24).length == 24) with
    | false => rw [hb] at h; simp at h
    | true => rfl
  have h2 : (cs.take 24).length = 24 := beq_iff_eq.mp h1
  rw [List.length_take] at h2
  omega

theorem normRun_length_le : ∀ n : Nat, ∀ l : List Char, (normRun n l).length ≤ l.length := by
  intro n
  induction n with
  | zero => intro l; exact le_refl _
  | succ n ih =>
    intro l
    cases l with
    | nil => exact le_refl _
    | cons c cs =>
      simp only [normRun]
      by_cases h : (c == '/' && matches24 cs) = true
      · rw [if_pos h]
        have h24 : 24 ≤ cs.length := by
          have := (Bool.and_eq_true _ _ ▸ h).2
          exact matches24_length cs this
        have := ih (cs.drop 24)
        rw [List.length_drop] at this
        simp only [List.length_cons]
        omega
      · rw [if_neg h]
        simp only [List.length_cons]
        exact Nat.succ_le_succ (ih cs)

theorem normChars_length_le (l : List Char) : (normChars l).length ≤ l.length :=
  normRun_length_le l.length l

theorem normChars_of_not_hasMatch : ∀ l : List Char, hasMatch l = false → normChars l = l := by
  intro l
  induction l with
  | nil => intro _; rfl
  | cons c cs ih =>
    intro h
    simp only [hasMatch, Bool.or_eq_false_iff] at h
    rw [normChars_cons_else c cs h.1, ih h.2]

theorem hex_ne_slash (a : Char) (h : isHexDigit a = true) : (a == '/') = false := by
  cases hb : (a == '/') with
  | false => rfl
  | true =>
    have : a = '/' := beq_iff_eq.mp hb
    subst this
    simp [isHexDigit] at h

theorem normChars_append_of_no_slash : ∀ pre rest : List Char,
    (∀ a ∈ pre, (a == '/') = false) →
    normChars (pre ++ rest) = pre ++ normChars rest := by
  intro pre
  induction pre with
  | nil => intro rest _; rfl
  | cons a pre ih =>
    intro rest h
    have ha : (a == '/') = false := h a (List.mem_cons_self a pre)
    have h' : ∀ x ∈ pre, (x == '/') = false := fun x hx => h x (List.mem_cons_of_mem a hx)
    rw [List.cons_append, normChars_cons_else a (pre ++ rest) (by simp [ha]), ih rest h']
    rfl

theorem normChars_cons_head (c : Char) (cs : List Char) :
    ∃ t, normChars (c :: cs) = c :: t := by
  by_cases h : (c == '/' && matches24 cs) = true
  · have hc : c = '/' := beq_iff_eq.mp (Bool.and_eq_true _ _ ▸ h).1
    subst hc
    exact ⟨_, normChars_cons_match '/' cs h⟩
  · exact ⟨_, normChars_cons_else c cs (Bool.eq_false_iff.mpr h)⟩

theorem dropWhile_head_not (p : Char → Bool) :
    ∀ (l : List Char) (x : Char) (xs : List Char), l.dropWhile p = x :: xs → p x = false := by
  intro l
  induction l with
  | nil => intro x xs h; simp [List.dropWhile] at h
  | cons a as ih =>
    intro x xs h
    by_cases hp : p a = true
    · rw [List.dropWhile_cons_of_pos hp] at h
      exact ih x xs h
    · rw [List.dropWhile_cons_of_neg hp] at h
      cases h
      exact Bool.eq_false_iff.mpr hp

theorem matches24_cons_nonhex (x : Char) (t : List Char) (hx : isHexDigit x = false) :
    matches24 (x :: t) = false := by
  unfold matches24
  rw [show (24 : Nat) = 23 + 1 from rfl, List.take_succ_cons]
  simp [hx]

theorem matches24_false_of_nonhex (pre : List Char) (x : Char) (t : List Char)
    (hlen : pre.length < 24) (hx : isHexDigit x = false) :
    matches24 (pre ++ x :: t) = false := by
  unfold matches24
  rw [List.take_append_eq_append_take]
  have h1 : pre.take 24 = pre := List.take_of_length_le (le_of_lt hlen)
  have h2 : 24 - pre.length = (24 - pre.length - 1) + 1 := by omega
  rw [h1, h2, List.take_succ_cons]
  simp [hx]

theorem matches24_normChars_false (cs : List Char) (h24 : 24 ≤ cs.length)
    (hm : matches24 cs = false) : matches24 (normChars cs) = false := by
  have hlen : (cs.take 24).length = 24 := by
    rw [List.length_take]; omega
  have hall : (cs.take 24).all isHexDigit = false := by
    unfold matches24 at hm
    cases ha : (cs.take 24).all isHexDigit with
    | false => rfl
    | true =>
      rw [ha, hlen] at hm
      simp at hm
  have hpre_hex : ∀ a ∈ cs.takeWhile isHexDigit, isHexDigit a = true :=
    fun a ha => List.mem_takeWhile_imp ha
  have hpre_len : (cs.takeWhile isHexDigit).length < 24 := by
    by_contra hge
    push_neg at hge
    have heq : cs.take 24 = (cs.takeWhile isHexDigit).take 24 := by
      conv_lhs => rw [← List.takeWhile_append_dropWhile isHexDigit cs]
      rw [List.take_append_eq_append_take]
      have h0 : 24 - (cs.takeWhile isHexDigit).length = 0 := by omega
      rw [h0]
      simp
    have htrue : (cs.take 24).all isHexDigit = true := by
      rw [heq, List.all_eq_true]
      intro a ha
      exact hpre_hex a (List.take_subset 24 _ ha)
    rw [htrue] at hall
    exact absurd hall (by simp)
  obtain ⟨x, xs, hxeq⟩ : ∃ x xs, cs.dropWhile isHexDigit = x :: xs := by
    cases hd : cs.dropWhile isHexDigit with
    | nil =>
      exfalso
      have hcseq : cs = cs.takeWhile isHexDigit := by
        conv_lhs => rw [← List.takeWhile_append_dropWhile isHexDigit cs]
        rw [hd]
        simp
      have : cs.length < 24 := by rw [hcseq]; exact hpre_len
      omega
    | cons x xs => exact ⟨x, xs, rfl⟩
  have hx : isHexDigit x = false := dropWhile_head_not isHexDigit cs x xs hxeq
  have hcs : cs = cs.takeWhile isHexDigit ++ x :: xs := by
    conv_lhs => rw [← List.takeWhile_append_dropWhile isHexDigit cs]
    rw [hxeq]
  rw [hcs, normChars_append_of_no_slash _ _ (fun a ha => hex_ne_slash a (hpre_hex a ha))]
  obtain ⟨t, ht⟩ := normChars_cons_head x xs
  rw [ht]
  exact matches24_false_of_nonhex _ x t hpre_len hx

theorem hasMatch_normChars_aux : ∀ n : Nat, ∀ l : List Char, l.length ≤ n →
    hasMatch (normChars l) = false := by
  intro n
  induction n with
  | zero =>
    intro l h
    have hl : l = [] := List.length_eq_zero.mp (Nat.le_zero.mp h)
    subst hl
    rfl
  | succ n ih =>
    intro l hl
    cases l with
    | nil => rfl
    | cons c cs =>
      have hcn : cs.length ≤ n := Nat.succ_le_succ_iff.mp hl
      by_cases h : (c == '/' && matches24 cs) = true
      · rw [normChars_cons_match c cs h]
        have h24 : 24 ≤ cs.length := matches24_length cs (Bool.and_eq_true _ _ ▸ h).2
        have ihm : hasMatch (normChars (cs.drop 24)) = false := by
          apply ih
          rw [List.length_drop]
          omega
        simp only [hasMatch, ihm]
        rw [matches24_cons_nonhex ':' _ (by decide)]
        simp
      · have h' : (c == '/' && matches24 cs) = false := Bool.eq_false_iff.mpr h
        rw [normChars_cons_else c cs h']
        have ihc : hasMatch (normChars cs) = false := ih cs hcn
        simp only [hasMatch, ihc, Bool.or_false]
        by_cases hc : (c == '/') = true
        · have hmm : matches24 cs = false := by
            cases hmc : matches24 cs with
            | false => rfl
            | true => rw [hc, hmc] at h'; simp at h'
          have : matches24 (normChars cs) = false := by
            by_cases h24 : 24 ≤ cs.length
            · exact matches24_normChars_false cs h24 hmm
            · cases hmx : matches24 (normChars cs) with
              | false => rfl
              | true =>
                have := matches24_length _ hmx
                have := normChars_length_le cs
                omega
          rw [this]
          simp
        · rw [Bool.eq_false_iff.mpr hc]
          simp

theorem hasMatch_normChars (l : List Char) : hasMatch (normChars l) = false :=
  hasMatch_normChars_aux l.length l (le_refl _)


/-! ## The claims -/

theorem normChars_append_match : ∀ a : List Char, ∀ h : List Char, hasMatch a = false →
    h.length = 24 → h.all isHexDigit = true →
    normChars (a ++ '/' :: h) = a ++ ['/', ':', 'i', 'd'] := by
  have hmOf : ∀ h : List Char, h.length = 24 → h.all isHexDigit = true → matches24 h = true := by
    intro h hlen hhex
    unfold matches24
    rw [List.take_of_length_le (le_of_eq hlen), hhex, hlen]
    rfl
  intro a
  induction a with
  | nil =>
    intro h ha hlen hhex
    rw [List.nil_append, normChars_cons_match '/' h (by simp [hmOf h hlen hhex]),
        List.drop_eq_nil_of_le (le_of_eq hlen), normChars_nil]
    rfl
  | cons c a ih =>
    intro h ha hlen hhex
    simp only [hasMatch, Bool.or_eq_false_iff] at ha
    have hcond : (c == '/' && matches24 (a ++ '/' :: h)) = false := by
      by_cases hc : (c == '/') = true
      · have hma : matches24 a = false := by
          cases hmc : matches24 a with
          | false => rfl
          | true =>
            rw [hc, hmc] at ha
            simp at ha
        rw [hc, Bool.true_and]
        by_cases hal : a.length < 24
        · exact matches24_false_of_nonhex a '/' h hal (by decide)
        · push_neg at hal
          have htk : (a ++ '/' :: h).take 24 = a.take 24 := by
            rw [List.take_append_eq_append_take]
            have h0 : 24 - a.length = 0 := by omega
            rw [h0]
            simp
          unfold matches24 at hma ⊢
          rw [htk]
          exact hma
      · rw [Bool.eq_false_iff.mpr hc, Bool.false_and]
    rw [List.cons_append, normChars_cons_else c _ hcond, ih h ha.2 hlen hhex]
    rfl

/-- C1: for every completed request the finish callback records exactly one
histogram observation and exactly one counter increment, both under the
same label set built from the method, the normalized route and the status
code, whatever the status code is; every other label set is untouched. -/
theorem claim1_one_observation_one_increment (reg : Registry) (req : Request)
    (res : Response) (d : ℚ) :
    (onFinish reg req res d).counters (requestLabels req res)
      = reg.counters (requestLabels req res) + 1 ∧
    (onFinish reg req res d).histObs (requestLabels req res)
      = reg.histObs (requestLabels req res) ++ [d] ∧
    ∀ l : Labels, l ≠ requestLabels req res →
      (onFinish reg req res d).counters l = reg.counters l ∧
      (onFinish reg req res d).histObs l = reg.histObs l := by
  refine ⟨by simp [onFinish, incCounter, observeHist], by simp [onFinish, incCounter, observeHist], ?_⟩
  intro l hl
  constructor <;> simp [onFinish, incCounter, observeHist, hl]

/-- Concrete instantiation of C1: one finish event on the empty registry
at a GET 200 request for a bookings route. -/
theorem claim1_witness :
    (onFinish emptyRegistry exReq exRes 1).counters exLabels = 1 ∧
    (onFinish emptyRegistry exReq exRes 1).histObs exLabels = [1] ∧
    (onFinish emptyRegistry exReq exRes 1).counters ⟨"POST", "/events", "500"⟩ = 0 := by
  have h := claim1_one_observation_one_increment emptyRegistry exReq exRes 1
  have hl : exLabels = requestLabels exReq exRes := by decide
  refine ⟨?_, ?_, ?_⟩
  · rw [hl, h.1]; exact rfl
  · rw [hl, h.2.1]; exact rfl
  · exact ((h.2.2 ⟨"POST", "/events", "500"⟩ (by decide)).1).trans rfl

/-- C2, counterexample to the claim as stated: the path
`/x/aaaaaaaaaaaaaaaaaaaaaaaaa` (25 hex characters in the last segment)
contains no path segment that is a 24-character hexadecimal identifier,
yet the code does not record it verbatim: the regex rewrites the first 24
hex characters after the slash, yielding `/x/:ida`. -/
theorem claim2_counterexample :
    hasHex24Segment "/x/aaaaaaaaaaaaaaaaaaaaaaaaa" = false ∧
    normalizeRoute "/x/aaaaaaaaaaaaaaaaaaaaaaaaa" ≠ "/x/aaaaaaaaaaaaaaaaaaaaaaaaa" := by
  constructor
  · decide
  · decide

/-- C2 as amended: normalization replaces every occurrence of `/`
followed by 24 hexadecimal characters (not: every 24-character segment)
with `/:id`; a path without such an occurrence is recorded verbatim; when
a whole trailing segment of exactly 24 hex characters follows a
match-free prefix, it is collapsed to `/:id`; and the example path
normalizes as the specification shows. -/
theorem claim2_amended :
    (∀ s : String, hasMatchStr s = false → normalizeRoute s = s) ∧
    (∀ p h : String, hasMatchStr p = false → h.length = 24 →
      h.data.all isHexDigit = true → normalizeRoute (p ++ "/" ++ h) = p ++ "/:id") ∧
    normalizeRoute "/bookings/507f1f77bcf86cd799439011" = "/bookings/:id" := by
  refine ⟨?_, ?_, by decide⟩
  · intro s hs
    exact String.ext (normChars_of_not_hasMatch s.data hs)
  · intro p h hp hlen hhex
    apply String.ext
    show normChars ((p ++ "/" ++ h).data) = (p ++ "/:id").data
    have hd : (p ++ "/" ++ h).data = p.data ++ '/' :: h.data := by
      rw [String.data_append, String.data_append, List.append_assoc]
      rfl
    rw [hd, normChars_append_match p.data h.data hp hlen hhex, String.data_append]

/-- Concrete instantiation of the amended C2: a match-free path is
recorded verbatim, and appending a 24-hex-character segment collapses it
to the placeholder. -/
theorem claim2_amended_witness :
    normalizeRoute "/health" = "/health" ∧
    normalizeRoute ("/events" ++ "/" ++ "507f1f77bcf86cd799439011") = "/events" ++ "/:id" := by
  constructor
  · exact claim2_amended.1 "/health" (by decide)
  · exact claim2_amended.2.1 "/events" "507f1f77bcf86cd799439011" (by decide) (by decide) (by decide)

/-- C3: the route label before normalization follows the three-step
fallback of `req.route?.path || req.path || 'unknown'`: the matched route
pattern when available, else the raw request path when available, else
the literal `unknown` (availability meaning present and non-empty, the
JavaScript truthiness the `||` chain tests). -/
theorem claim3_route_label_fallback (req : Request) :
    (∀ s, req.routePath = some s → s ≠ "" → rawRoute req = s) ∧
    (jsAvailable req.routePath = false →
      ∀ t, req.path = some t → t ≠ "" → rawRoute req = t) ∧
    (jsAvailable req.routePath = false → jsAvailable req.path = false →
      rawRoute req = "unknown") := by
  obtain ⟨m, rp, p⟩ := req
  refine ⟨?_, ?_, ?_⟩
  · intro s hs hne
    cases hs
    have : s.isEmpty = false := by
      cases he : s.isEmpty with
      | false => rfl
      | true => exact absurd ((String.isEmpty_iff s).mp he) hne
    simp [rawRoute, jsOrStr, this]
  · intro hrp t ht htne
    cases ht
    have htf : t.isEmpty = false := by
      cases he : t.isEmpty with
      | false => rfl
      | true => exact absurd ((String.isEmpty_iff t).mp he) htne
    cases rp with
    | none => simp [rawRoute, jsOrStr, htf]
    | some s =>
      simp only [jsAvailable, Bool.not_eq_false'] at hrp
      simp [rawRoute, jsOrStr, hrp, htf]
  · intro hrp hp
    cases rp with
    | none =>
      cases p with
      | none => rfl
      | some t =>
        simp only [jsAvailable, Bool.not_eq_false'] at hp
        simp [rawRoute, jsOrStr, hp]
    | some s =>
      simp only [jsAvailable, Bool.not_eq_false'] at hrp
      cases p with
      | none => simp [rawRoute, jsOrStr, hrp]
      | some t =>
        simp only [jsAvailable, Bool.not_eq_false'] at hp
        simp [rawRoute, jsOrStr, hrp, hp]

/-- Concrete instantiation of C3: each of the three fallback steps at a
concrete request. -/
theorem claim3_witness :
    rawRoute ⟨"GET", some "/bookings/:id", some "/bookings/507f1f77bcf86cd799439011"⟩
      = "/bookings/:id" ∧
    rawRoute ⟨"GET", none, some "/health"⟩ = "/health" ∧
    rawRoute ⟨"GET", none, none⟩ = "unknown" := by
  refine ⟨?_, ?_, ?_⟩
  · exact (claim3_route_label_fallback _).1 "/bookings/:id" rfl (by decide)
  · exact (claim3_route_label_fallback _).2.1 (by decide) "/health" rfl (by decide)
  · exact (claim3_route_label_fallback _).2.2 (by decide) (by decide)

/-- C4: the middleware's effects are confined to the registry: the
response reaches the client exactly as the downstream handlers produced
it (status code, headers and body included), and `next()` is always
invoked. -/
theorem claim4_no_response_mutation (reg : Registry) (req : Request) (res : Response)
    (startNs endNs : Nat) :
    (metricsMiddleware reg req res startNs endNs).2.1 = res ∧
    (metricsMiddleware reg req res startNs endNs).2.1.statusCode = res.statusCode ∧
    (metricsMiddleware reg req res startNs endNs).2.1.headers = res.headers ∧
    (metricsMiddleware reg req res startNs endNs).2.1.body = res.body ∧
    (metricsMiddleware reg req res startNs endNs).2.2 = true :=
  ⟨rfl, rfl, rfl, rfl, rfl⟩

/-- C5: the `GET /metrics` handler sets the Content-Type header to the
text exposition format's registered MIME type, exports the registry's
full current state (instrument for instrument, value for value), and
every exported series carries the `service=booking-service` default
label installed at registry construction. -/
theorem claim5_metrics_endpoint (defSeries : String → List Series)
    (durSeries totSeries : List Series) :
    (metricsHandler (moduleRegister defSeries durSeries totSeries)).1 = promContentType ∧
    ((metricsHandler (moduleRegister defSeries durSeries totSeries)).2.map Instrument.name =
      (moduleRegister defSeries durSeries totSeries).instruments.map Instrument.name) ∧
    ((metricsHandler (moduleRegister defSeries durSeries totSeries)).2.map
        (fun i => i.series.map Series.value) =
      (moduleRegister defSeries durSeries totSeries).instruments.map
        (fun i => i.series.map Series.value)) ∧
    ∀ inst ∈ (metricsHandler (moduleRegister defSeries durSeries totSeries)).2,
      ∀ s ∈ inst.series, ("service", "booking-service") ∈ s.labels := by
  refine ⟨rfl, ?_, ?_, ?_⟩
  · simp [metricsHandler, registryRender, renderInstrument, moduleRegister, defaultMetricNames,
      List.map_map, Function.comp]
  · simp [metricsHandler, registryRender, renderInstrument, moduleRegister, defaultMetricNames,
      List.map_map, Function.comp]
  · intro inst hinst s hs
    simp only [metricsHandler, registryRender, List.mem_map] at hinst
    obtain ⟨i0, _, hrend⟩ := hinst
    subst hrend
    simp only [renderInstrument, List.mem_map] at hs
    obtain ⟨s0, _, hrs⟩ := hs
    subst hrs
    simp [moduleRegister]

/-- Concrete instantiation of C5: at a registry whose duration histogram
has one series, the exported series carries the service label. -/
theorem claim5_witness :
    ("service", "booking-service") ∈
      (Series.labels ⟨[("service", "booking-service"), ("method", "GET")], 1⟩) := by
  have h := claim5_metrics_endpoint (fun _ => []) [⟨[("method", "GET")], 1⟩] []
  exact h.2.2.2
    ⟨"http_request_duration_seconds", [⟨[("service", "booking-service"), ("method", "GET")], 1⟩]⟩
    (by decide)
    ⟨[("service", "booking-service"), ("method", "GET")], 1⟩
    (by decide)

theorem applyOp_counters_le (reg : Registry) (op : Op) (l : Labels) :
    reg.counters l ≤ (applyOp reg op).counters l := by
  cases op with
  | scrape => exact le_refl _
  | request req res s e =>
    simp only [applyOp, onFinish, incCounter, observeHist]
    by_cases h : l = requestLabels req res
    · simp [h]
    · simp [h]

/-- C6: across any sequence of recorded requests and scrapes, the value
of the `http_requests_total` counter for any label combination never
decreases. -/
theorem claim6_counter_monotone (reg : Registry) (ops : List Op) (l : Labels) :
    reg.counters l ≤ (applyOps reg ops).counters l := by
  induction ops generalizing reg with
  | nil => exact le_refl _
  | cons op ops ih =>
    exact le_trans (applyOp_counters_le reg op l) (ih (applyOp reg op))

/-- C7: a start time is captured when the request begins and the value
observed into the duration histogram at completion is exactly the
completion time minus that start time, converted to seconds. -/
theorem claim7_elapsed_time_observed (reg : Registry) (req : Request) (res : Response)
    (startNs endNs : Nat) :
    (metricsMiddleware reg req res startNs endNs).1.histObs (requestLabels req res) =
      reg.histObs (requestLabels req res)
        ++ [((endNs : ℚ) - (startNs : ℚ)) / 1000000000] := by
  simp [metricsMiddleware, onFinish, incCounter, observeHist, elapsedSeconds]

/-- C8: when N completing requests all record under the same label
combination, each produces its own increment and none is lost: the
counter ends at its prior value plus N.  (Node.js runs the completion
callbacks one after another on the event loop, so concurrent completions
are a sequence of atomic recording events.) -/
theorem claim8_no_lost_updates (reg : Registry) (l : Labels) (ops : List Op)
    (h : ∀ op ∈ ops, opTarget op = some l) :
    (applyOps reg ops).counters l = reg.counters l + ops.length := by
  induction ops generalizing reg with
  | nil => simp [applyOps]
  | cons op ops ih =>
    have hop := h op (List.mem_cons_self op ops)
    have h' : ∀ o ∈ ops, opTarget o = some l := fun o ho => h o (List.mem_cons_of_mem op ho)
    cases op with
    | scrape => simp [opTarget] at hop
    | request req res s e =>
      simp only [opTarget, Option.some.injEq] at hop
      show (applyOps (applyOp reg (.request req res s e)) ops).counters l = _
      rw [ih (applyOp reg (.request req res s e)) h']
      simp [applyOp, onFinish, incCounter, observeHist, hop]
      omega

/-- Concrete instantiation of C8: three completions with the same label
set on the empty registry leave the counter at three. -/
theorem claim8_witness :
    (applyOps emptyRegistry [exOp, exOp, exOp]).counters exLabels = 3 := by
  have h := claim8_no_lost_updates emptyRegistry exLabels [exOp, exOp, exOp] (by decide)
  simpa [emptyRegistry] using h

/-- C9: the route-normalization transform is idempotent: the replacement
output never contains a new occurrence of `/` followed by 24 hex
characters (the inserted `:` and `i` are not hexadecimal and break every
candidate window), so a second application changes nothing. -/
theorem claim9_normalize_idempotent (s : String) :
    normalizeRoute (normalizeRoute s) = normalizeRoute s :=
  String.ext (normChars_of_not_hasMatch (normChars s.data) (hasMatch_normChars s.data))

/-- C10: besides the two HTTP instruments, the registry rendered by the
`GET /metrics` handler carries the default Node.js process metrics
registered at module load by `collectDefaultMetrics`, so the scrape
output is a strict superset of the two described instruments. -/
theorem claim10_default_metrics_superset (defSeries : String → List Series)
    (durSeries totSeries : List Series) :
    ((metricsHandler (moduleRegister defSeries durSeries totSeries)).2.map Instrument.name =
      defaultMetricNames ++ ["http_request_duration_seconds", "http_requests_total"]) ∧
    "http_request_duration_seconds" ∈
      (metricsHandler (moduleRegister defSeries durSeries totSeries)).2.map Instrument.name ∧
    "http_requests_total" ∈
      (metricsHandler (moduleRegister defSeries durSeries totSeries)).2.map Instrument.name ∧
    "process_cpu_user_seconds_total" ∈
      (metricsHandler (moduleRegister defSeries durSeries totSeries)).2.map Instrument.name ∧
    "process_cpu_user_seconds_total" ∉
      ["http_request_duration_seconds", "http_requests_total"] := by
  have hnames : (metricsHandler (moduleRegister defSeries durSeries totSeries)).2.map
      Instrument.name =
      defaultMetricNames ++ ["http_request_duration_seconds", "http_requests_total"] := by
    simp [metricsHandler, registryRender, renderInstrument, moduleRegister, defaultMetricNames,
      List.map_map, Function.comp]
  refine ⟨hnames, ?_, ?_, ?_, by decide⟩ <;> rw [hnames] <;> decide

/-- Concrete instantiation of C10 at a registry with empty series. -/
theorem claim10_witness :
    (metricsHandler (moduleRegister (fun _ => []) [] [])).2.map Instrument.name =
      defaultMetricNames ++ ["http_request_duration_seconds", "http_requests_total"] :=
  (claim10_default_metrics_superset (fun _ => []) [] []).1


end EventSphere
